import Mathlib

/-!
Verification development for the `screening` repository: a shallow embedding
of `tv_equity_scanner.py` and `top_500_4h.py` (universe loading, symbol
candidate generation, rating lookup, scan orchestration) together with
theorems settling the specification claims about them.

External effects are modelled explicitly: the TradingView lookup is an
oracle function from a candidate to an optional rating (`none` standing for
an unreachable candidate / raised exception), network fetches are `Except`
values supplied as parameters, and `time.sleep` is an event in a trace.
-/

namespace Screening

/-! Character and string helpers used by the loaders. -/

/-- Python `str.replace(old, new)` for one-character patterns: replace every
occurrence of `old` by `new`. -/
def replaceChar (old new : Char) (s : String) : String :=
  String.mk (s.data.map (fun c => if c = old then new else c))

/-- Python `str.replace(old, "")` for a one-character pattern: delete every
occurrence of `old`. -/
def removeChar (old : Char) (s : String) : String :=
  String.mk (s.data.filter (fun c => c != old))

/-- Python `str.upper()`, character by character. -/
def upperStr (s : String) : String :=
  String.mk (s.data.map Char.toUpper)

/-- Python `str.lower()`, character by character. -/
def lowerStr (s : String) : String :=
  String.mk (s.data.map Char.toLower)

/-- Python `c in s` for a single character. -/
def containsChar (s : String) (c : Char) : Bool :=
  s.data.contains c

/-- Does `needle` occur at the head of the haystack. -/
def matchesAt : List Char → List Char → Bool
  | [], _ => true
  | _ :: _, [] => false
  | a :: as, b :: bs => a == b && matchesAt as bs

/-- Does `needle` occur as a contiguous run anywhere in the haystack. -/
def hasSub (needle : List Char) : List Char → Bool
  | [] => matchesAt needle []
  | c :: rest => matchesAt needle (c :: rest) || hasSub needle rest

/-- Python substring test `needle in hay`. -/
def containsStr (hay needle : String) : Bool :=
  hasSub needle.data hay.data

/-! Universe loading (`tv_equity_scanner.py` lines 36-146). -/

/-- The ticker normalization pipeline shared by `fetch_sp500`,
`read_sp500_csv` and `read_russell3000`: replace "." by "-", replace "/" by
"-", delete spaces, then uppercase (the pandas `.str.replace / .str.upper`
chain, applied in exactly that order). -/
def normalizeTicker (s : String) : String :=
  upperStr (removeChar ' ' (replaceChar '/' '-' (replaceChar '.' '-' s)))

/-- The `.tolist()` of the loader pipeline: the normalization applied to
every entry of the chosen ticker column, in order. -/
def loadTickerColumn (col : List String) : List String :=
  col.map normalizeTicker

/-- Modelled from the spec wording of the data model: identifiers are
"uppercased; '.' and '/' mapped to '-' for lookups". Used only to compare
the source's normalization against the spec's words. -/
def specNormalize (s : String) : String :=
  String.mk (s.data.map (fun c => if c = '.' ∨ c = '/' then '-' else Char.toUpper c))

/-- A parsed CSV, abstracted to its columns: each entry is one column as
(header, values). -/
abbrev Csv := List (String × List String)

/-- The ways a universe load can raise in `main`. -/
inductive LoadErr
  | missingTickerColumn
  | fetchFailed
deriving DecidableEq

/-- The header test of the column loops in `read_sp500_csv` and
`read_russell3000`: the lowercased header contains "ticker" or "symbol". -/
def isTickerHeader (h : String) : Bool :=
  containsStr (lowerStr h) "ticker" || containsStr (lowerStr h) "symbol"

/-- The first column whose header passes `isTickerHeader` (the for-loop with
break over `df.columns`). -/
def findTickerColumn (csv : Csv) : Option (String × List String) :=
  csv.find? (fun c => isTickerHeader c.1)

/-- `read_sp500_csv` (lines 105-124): raises `RuntimeError` when no
ticker-like column exists, otherwise returns the normalized column values. -/
def read_sp500_csv (csv : Csv) : Except LoadErr (List String) :=
  match findTickerColumn csv with
  | none => Except.error LoadErr.missingTickerColumn
  | some c => Except.ok (loadTickerColumn c.2)

/-- `read_russell3000` (lines 126-146): identical column search and
normalization pipeline. -/
def read_russell3000 (csv : Csv) : Except LoadErr (List String) :=
  match findTickerColumn csv with
  | none => Except.error LoadErr.missingTickerColumn
  | some c => Except.ok (loadTickerColumn c.2)

/-! The equity scanner's candidate generation (lines 17 and 148-162). -/

/-- `EQUITY_EXCHANGES` from `tv_equity_scanner.py` line 17. -/
def EQUITY_EXCHANGES : List String := ["NASDAQ", "NYSE", "AMEX"]

/-- The symbol-variant set `cands` of `tv_symbol_candidates`, modelled as an
insertion-ordered duplicate-free list: the ticker itself, then (when "-"
occurs in it) the "." variant, then (when "." occurs) the "-" variant. The
three entries are pairwise distinct whenever the guards hold, so the set
content matches the Python set exactly. -/
def candSyms (ticker : String) : List String :=
  ([ticker]
    ++ (if containsChar ticker '-' then [replaceChar '-' '.' ticker] else [])
    ++ (if containsChar ticker '.' then [replaceChar '.' '-' ticker] else [])).dedup

/-- `tv_symbol_candidates` with the exchange list passed explicitly (the
source reads the module-level `EQUITY_EXCHANGES`): symbol variants in the
outer loop, exchanges in the inner loop, pairs `(exchange, symbol)`. -/
def tv_symbol_candidatesWith (exchanges : List String) (ticker : String) :
    List (String × String) :=
  (candSyms ticker).flatMap (fun t => exchanges.map (fun ex => (ex, t)))

/-- `tv_symbol_candidates` as in the source, over `EQUITY_EXCHANGES`. -/
def tv_symbol_candidates (ticker : String) : List (String × String) :=
  tv_symbol_candidatesWith EQUITY_EXCHANGES ticker

/-! Rating lookup (lines 164-174). -/

/-- The outcome of `TA_Handler(...).get_analysis().summary`: either a raised
exception or the summary dictionary, modelled as an association list. -/
abbrev AnalysisResult := Except String (List (String × String))

/-- `get_tv_rating`: the whole body runs inside `try/except Exception`, so a
raised exception becomes `None`; on success the result is
`summary.get("RECOMMENDATION")`, which is `None` when the key is absent. -/
def get_tv_rating (analyze : String → String → String → AnalysisResult)
    (exchange symbol interval : String) : Option String :=
  match analyze exchange symbol interval with
  | Except.error _ => none
  | Except.ok summary =>
    (summary.find? (fun kv => kv.1 == "RECOMMENDATION")).map (fun kv => kv.2)

/-! The scan loop of `scan_universe` (lines 176-202). -/

/-- The filter `rec in ("BUY", "STRONG_BUY")`. -/
def isBuy (rec : String) : Bool :=
  rec == "BUY" || rec == "STRONG_BUY"

/-- The inner candidate loop of `scan_universe` (lines 184-191), with the
external lookup abstracted to an oracle from candidate to optional rating.
Returns the queried candidates in query order together with the accepted
(candidate, rating) pair, if any: the first non-`none` answer stops the
loop, and only a BUY/STRONG_BUY answer is accepted as a row. -/
def probeCands (rating : String × String → Option String) :
    List (String × String) → List (String × String) × Option ((String × String) × String)
  | [] => ([], none)
  | c :: rest =>
    match rating c with
    | some rec => if isBuy rec then ([c], some (c, rec)) else ([c], none)
    | none =>
      let r := probeCands rating rest
      (c :: r.1, r.2)

/-- One output row of the equity scanner. -/
structure Row where
  ticker : String
  tv_exchange : String
  tv_symbol : String
  rating : String
  timeframe : String
deriving DecidableEq

/-- The row contributed by one ticker occurrence: the accepted candidate of
`probeCands` over `tv_symbol_candidates`, or nothing. -/
def probeRow (rating : String × String → Option String) (tf t : String) : Option Row :=
  match (probeCands rating (tv_symbol_candidates t)).2 with
  | some (c, rec) => some ⟨t, c.1, c.2, rec, tf⟩
  | none => none

/-- The `rows` list of `scan_universe` for one timeframe, in append order. -/
def scanRowsTf (rating : String × String → Option String) (tf : String)
    (tickers : List String) : List Row :=
  tickers.flatMap (fun t => (probeRow rating tf t).toList)

/-- `sort_values(["rating", "ticker"], ascending=[True, True])` as a Boolean
total preorder on rows. -/
def rowLe (a b : Row) : Bool :=
  decide (a.rating < b.rating ∨ (a.rating = b.rating ∧ a.ticker ≤ b.ticker))

/-- The output table of `scan_universe` for one timeframe: the collected
rows sorted ascending by (rating, ticker). -/
def scan_universe_tf (rating : String × String → Option String) (tf : String)
    (tickers : List String) : List Row :=
  (scanRowsTf rating tf tickers).mergeSort rowLe

/-! The call/sleep trace of `scan_universe` (for the rate-limit claims). -/

/-- Observable events of the scan: one external TradingView query, or one
`time.sleep(SLEEP_BETWEEN_CALLS)`. -/
inductive Event
  | call (exchange symbol tf : String)
  | sleepEv
deriving DecidableEq

/-- The event trace of one ticker in `scan_universe`: one call per queried
candidate, then the single `time.sleep` at the end of the per-ticker loop
body (line 194). -/
def tickerTrace (rating : String × String → Option String) (tf t : String) : List Event :=
  ((probeCands rating (tv_symbol_candidates t)).1.map (fun c => Event.call c.1 c.2 tf))
    ++ [Event.sleepEv]

/-- The event trace of one timeframe pass of `scan_universe`. -/
def scanTraceTf (rating : String × String → Option String) (tf : String)
    (tickers : List String) : List Event :=
  tickers.flatMap (tickerTrace rating tf)

/-- Is an event an external call. -/
def isCall : Event → Bool
  | Event.call _ _ _ => true
  | Event.sleepEv => false

/-- Boolean adjacent-pair check on a list. -/
def adjacentOk {α : Type} (p : α → α → Bool) : List α → Bool
  | [] => true
  | [_] => true
  | a :: b :: rest => p a b && adjacentOk p (b :: rest)

/-- The property claimed of the trace: no two external calls are adjacent,
i.e. some sleep separates every pair of consecutive calls. -/
def sleepSeparated (tr : List Event) : Bool :=
  adjacentOk (fun a b => !(isCall a && isCall b)) tr

/-! The crypto pipeline `top_500_4h.py`. -/

/-- One CoinGecko markets object, restricted to the fields the script reads. -/
structure Coin where
  name : String
  symbol : String
  market_cap : Int
deriving DecidableEq

/-- One output row of the crypto pipeline. -/
structure CryptoRow where
  name : String
  symbol : String
  tv_exchange : String
  tv_symbol : String
  market_cap : Int
  rating_4h : String
deriving DecidableEq

/-- The crypto symbol formatting inside `tv_symbols`: uppercase, then delete
"." and "-" (`symbol.upper().replace(".", "").replace("-", "")`). -/
def tvBase (symbol : String) : String :=
  removeChar '-' (removeChar '.' (upperStr symbol))

/-- `tv_symbols` from `top_500_4h.py` (lines 12-17): the fixed candidate
(exchange, pair) list for one coin symbol. -/
def tv_symbols (symbol : String) : List (String × String) :=
  [("BINANCE", tvBase symbol ++ "USDT"),
   ("BYBIT", tvBase symbol ++ "USDT"),
   ("COINBASE", tvBase symbol ++ "USD"),
   ("KRAKEN", tvBase symbol ++ "USD")]

/-- One coin's pass over its `tv_symbols` candidates (lines 20-38): the
external attempt is an oracle where `none` stands for a raised exception;
the first answering candidate stops the loop (`ok = True; break` runs on any
successful response), and only a BUY/STRONG_BUY recommendation appends a
row. This is the same stop-at-first-answer policy as `probeCands`. -/
def cryptoRow (attempt : String × String → Option String) (c : Coin) : Option CryptoRow :=
  match (probeCands attempt (tv_symbols c.symbol)).2 with
  | some (cand, rec) => some ⟨c.name, upperStr c.symbol, cand.1, cand.2, c.market_cap, rec⟩
  | none => none

/-- The `rows` list of the crypto pipeline over the fetched coin list. -/
def cryptoRows (attempt : Coin → String × String → Option String)
    (cg : List Coin) : List CryptoRow :=
  cg.flatMap (fun c => (cryptoRow (attempt c) c).toList)

/-- `sort_values("market_cap", ascending=False)` as a Boolean preorder. -/
def capDesc (a b : CryptoRow) : Bool :=
  decide (b.market_cap ≤ a.market_cap)

/-- The final crypto table: rows sorted by market cap descending. -/
def crypto_output (attempt : Coin → String × String → Option String)
    (cg : List Coin) : List CryptoRow :=
  (cryptoRows attempt cg).mergeSort capDesc

/-! The CLI driver `main` (lines 204-266), with scanning abstracted to the
trace of `scan_universe` calls it performs. -/

/-- The two equity universes. -/
inductive Univ
  | sp500
  | r3000
deriving DecidableEq

/-- The CLI arguments that steer universe selection and slicing. `stop`
models the flag named `end` in the source (a Lean keyword). -/
structure Args where
  sp500_csv : Option Csv
  r3000_csv : Option Csv
  skip_sp500 : Bool
  only : Option Univ
  start : Nat
  stop : Option Nat

/-- Python slice `xs[start:stop]` for nonnegative bounds (the argparse
defaults are `start=0`, `end=None`). -/
def sliceList (start : Nat) (stop : Option Nat) (xs : List String) : List String :=
  match stop with
  | some e => (xs.take e).drop start
  | none => xs.drop start

/-- The test `args.only in (None, u)`. -/
def onlyAllows (o : Option Univ) (u : Univ) : Bool :=
  match o with
  | none => true
  | some v => v == u

/-- One completed `scan_universe` call, abstracted to its label and the
ticker list it was given. -/
abbrev ScanCall := String × List String

/-- The Russell 3000 half of `main` (lines 256-266): runs only when `--only`
allows it; a missing CSV path only prints a warning and skips; a malformed
CSV raises, which aborts the process with the scans done so far. -/
def runR3000Part (a : Args) (acc : List ScanCall) : List ScanCall × Option LoadErr :=
  if onlyAllows a.only Univ.r3000 then
    match a.r3000_csv with
    | none => (acc, none)
    | some csv =>
      match read_russell3000 csv with
      | Except.error e => (acc, some e)
      | Except.ok r3k => (acc ++ [("russell3000", sliceList a.start a.stop r3k)], none)
  else (acc, none)

/-- `main` (lines 240-266), scanning abstracted to the ordered trace of
`scan_universe` calls: load the S&P 500 universe (local CSV when supplied,
otherwise the outcome of `fetch_sp500`, passed in as `fetch`), slice it,
scan it, then run the Russell 3000 part. An uncaught load error aborts the
whole process: nothing after it runs. -/
def runMain (fetch : Except LoadErr (List String)) (a : Args) :
    List ScanCall × Option LoadErr :=
  if onlyAllows a.only Univ.sp500 && !a.skip_sp500 then
    match (match a.sp500_csv with
           | some csv => read_sp500_csv csv
           | none => fetch) with
    | Except.error e => ([], some e)
    | Except.ok sp => runR3000Part a [("sp500", sliceList a.start a.stop sp)]
  else runR3000Part a []

/-! Helper lemmas about the probe loop. -/

/-- An accepted candidate of `probeCands` carries a BUY/STRONG_BUY rating,
is the oracle's actual answer, and comes from the candidate list. -/
theorem probeCands_sound (rating : String × String → Option String) :
    ∀ (cs : List (String × String)) (c : String × String) (rec : String),
      (probeCands rating cs).2 = some (c, rec) →
      isBuy rec = true ∧ rating c = some rec ∧ c ∈ cs := by
  intro cs
  induction cs with
  | nil => intro c rec h; simp [probeCands] at h
  | cons c0 rest ih =>
    intro c rec h
    rw [probeCands] at h
    cases hr : rating c0 with
    | some r0 =>
      rw [hr] at h
      by_cases hb : isBuy r0
      · simp [hb] at h
        obtain ⟨h1, h2⟩ := h
        subst h1; subst h2
        exact ⟨hb, hr, List.mem_cons_self _ _⟩
      · simp [hb] at h
    | none =>
      rw [hr] at h
      obtain ⟨hb, hrc, hmem⟩ := ih c rec h
      exact ⟨hb, hrc, List.mem_cons_of_mem _ hmem⟩

/-- When the oracle answers for no candidate, every candidate is queried and
none is accepted. -/
theorem probeCands_all_none (rating : String × String → Option String) :
    ∀ cs : List (String × String), (∀ c ∈ cs, rating c = none) →
      probeCands rating cs = (cs, none) := by
  intro cs
  induction cs with
  | nil => intro _; rfl
  | cons c0 rest ih =>
    intro h
    have h0 : rating c0 = none := h c0 (List.mem_cons_self _ _)
    have hr := ih (fun c hc => h c (List.mem_cons_of_mem _ hc))
    simp [probeCands, h0, hr]

/-- If the first candidate with a non-`none` answer sits at index `i` and its
rating is not BUY/STRONG_BUY, then exactly the first `i + 1` candidates are
queried and no candidate is accepted. -/
theorem probeCands_stop (rating : String × String → Option String) :
    ∀ (cs : List (String × String)) (i : Nat) (h : i < cs.length) (rec : String),
      (∀ (j : Nat) (hj : j < cs.length), j < i → rating cs[j] = none) →
      rating cs[i] = some rec → isBuy rec = false →
      probeCands rating cs = (cs.take (i + 1), none) := by
  intro cs
  induction cs with
  | nil => intro i h; exact absurd h (Nat.not_lt_zero i)
  | cons c0 rest ih =>
    intro i h rec hbefore hi hnb
    cases i with
    | zero =>
      have h0 : rating c0 = some rec := hi
      simp [probeCands, h0, hnb]
    | succ i =>
      have h0 : rating c0 = none := hbefore 0 (by omega) (by omega)
      have hlen : i < rest.length := by
        have := h
        simp only [List.length_cons] at this
        omega
      have hrest := ih i hlen rec
        (fun j hj hji => by
          have := hbefore (j + 1) (by simpa using Nat.succ_lt_succ hj) (Nat.succ_lt_succ hji)
          simpa using this)
        (by simpa using hi) hnb
      simp [probeCands, h0, hrest]

/-- Fields of a row produced by one ticker occurrence. -/
theorem probeRow_fields (rating : String × String → Option String) (tf t : String)
    (r : Row) (h : probeRow rating tf t = some r) :
    isBuy r.rating = true ∧ r.ticker = t ∧ r.timeframe = tf := by
  unfold probeRow at h
  cases h2 : (probeCands rating (tv_symbol_candidates t)).2 with
  | none => rw [h2] at h; simp at h
  | some p =>
    rw [h2] at h
    obtain ⟨c, rec⟩ := p
    simp only [Option.some.injEq] at h
    obtain ⟨hb, _, _⟩ := probeCands_sound rating _ c rec h2
    subst h
    exact ⟨hb, rfl, rfl⟩

/-- Every row ever appended for a timeframe passes the BUY filter and names
one of the scanned tickers. -/
theorem mem_scanRowsTf (rating : String × String → Option String) (tf : String)
    (tickers : List String) (r : Row) (h : r ∈ scanRowsTf rating tf tickers) :
    isBuy r.rating = true ∧ r.ticker ∈ tickers := by
  unfold scanRowsTf at h
  rw [List.mem_flatMap] at h
  obtain ⟨t, ht, hr⟩ := h
  cases hp : probeRow rating tf t with
  | none => rw [hp] at hr; simp at hr
  | some r0 =>
    rw [hp] at hr
    simp only [Option.toList_some, List.mem_singleton] at hr
    subst hr
    obtain ⟨hb, hticker, _⟩ := probeRow_fields rating tf t r hp
    exact ⟨hb, hticker ▸ ht⟩

/-- Fields of a row produced by one coin. -/
theorem cryptoRow_fields (attempt : String × String → Option String) (c : Coin)
    (r : CryptoRow) (h : cryptoRow attempt c = some r) :
    isBuy r.rating_4h = true ∧ r.symbol = upperStr c.symbol := by
  unfold cryptoRow at h
  cases h2 : (probeCands attempt (tv_symbols c.symbol)).2 with
  | none => rw [h2] at h; simp at h
  | some p =>
    rw [h2] at h
    obtain ⟨cand, rec⟩ := p
    simp only [Option.some.injEq] at h
    obtain ⟨hb, _, _⟩ := probeCands_sound attempt _ cand rec h2
    subst h
    exact ⟨hb, rfl⟩

/-- Every crypto row passes the BUY filter. -/
theorem mem_cryptoRows (attempt : Coin → String × String → Option String)
    (cg : List Coin) (r : CryptoRow) (h : r ∈ cryptoRows attempt cg) :
    isBuy r.rating_4h = true := by
  unfold cryptoRows at h
  rw [List.mem_flatMap] at h
  obtain ⟨c, _, hr⟩ := h
  cases hp : cryptoRow (attempt c) c with
  | none => rw [hp] at hr; simp at hr
  | some r0 =>
    rw [hp] at hr
    simp only [Option.toList_some, List.mem_singleton] at hr
    subst hr
    exact (cryptoRow_fields (attempt c) c r hp).1

/-! The two sort keys are total transitive Boolean preorders. -/

theorem rowLe_trans (a b c : Row) (h1 : rowLe a b = true) (h2 : rowLe b c = true) :
    rowLe a c = true := by
  simp only [rowLe, decide_eq_true_eq] at h1 h2 ⊢
  rcases h1 with h1 | ⟨h1e, h1t⟩
  · rcases h2 with h2 | ⟨h2e, h2t⟩
    · exact Or.inl (lt_trans h1 h2)
    · exact Or.inl (h1.trans_eq h2e)
  · rcases h2 with h2 | ⟨h2e, h2t⟩
    · exact Or.inl (h1e.trans_lt h2)
    · exact Or.inr ⟨h1e.trans h2e, le_trans h1t h2t⟩

theorem rowLe_total (a b : Row) : (rowLe a b || rowLe b a) = true := by
  simp only [rowLe, Bool.or_eq_true, decide_eq_true_eq]
  rcases lt_trichotomy a.rating b.rating with h | h | h
  · exact Or.inl (Or.inl h)
  · rcases le_total a.ticker b.ticker with h2 | h2
    · exact Or.inl (Or.inr ⟨h, h2⟩)
    · exact Or.inr (Or.inr ⟨h.symm, h2⟩)
  · exact Or.inr (Or.inl h)

theorem capDesc_trans (a b c : CryptoRow) (h1 : capDesc a b = true)
    (h2 : capDesc b c = true) : capDesc a c = true := by
  simp only [capDesc, decide_eq_true_eq] at h1 h2 ⊢
  exact le_trans h2 h1

theorem capDesc_total (a b : CryptoRow) : (capDesc a b || capDesc b a) = true := by
  simp only [capDesc, Bool.or_eq_true, decide_eq_true_eq]
  exact (le_total b.market_cap a.market_cap)

/-! Counting lemmas for the trace and the output rows. -/

/-- Each ticker contributes exactly one sleep event to the trace. -/
theorem count_sleep_tickerTrace (rating : String × String → Option String)
    (tf t : String) : (tickerTrace rating tf t).count Event.sleepEv = 1 := by
  unfold tickerTrace
  rw [List.count_append]
  have h0 : ((probeCands rating (tv_symbol_candidates t)).1.map
      (fun c => Event.call c.1 c.2 tf)).count Event.sleepEv = 0 := by
    rw [List.count_eq_zero]
    intro hmem
    rw [List.mem_map] at hmem
    obtain ⟨c, _, hc⟩ := hmem
    exact Event.noConfusion hc
  rw [h0]
  rfl

/-! Claim theorems. -/

/-- C1, counterexample. The claim says every universe loader returns a
deduplicated identifier list. The loaders apply the normalization pipeline
and `.tolist()` with no deduplication anywhere, so a column holding both
spellings of one class-share ticker yields the same normalized identifier
twice. -/
theorem universe_loader_keeps_duplicates_counterexample :
    loadTickerColumn ["BRK.B", "BRK-B"] = ["BRK-B", "BRK-B"] ∧
    ¬ (loadTickerColumn ["BRK.B", "BRK-B"]).Nodup := by decide

/-- C1, amended. The universe loaders return one normalized identifier per
source row, preserving source order (hence descending market-cap order for a
market-cap-sorted source); they do not deduplicate. -/
theorem universe_loader_normalizes_in_order (col : List String) (i : Nat) :
    (loadTickerColumn col).length = col.length ∧
    (loadTickerColumn col)[i]? = (col[i]?).map normalizeTicker := by
  refine ⟨List.length_map _ _, ?_⟩
  simp [loadTickerColumn, List.getElem?_map]

/-- C2, counterexample. With an S&P 500 CSV lacking a ticker/symbol column
and a perfectly valid Russell 3000 CSV, `main` raises while loading the
S&P 500 universe and the process aborts: the trace of completed
`scan_universe` calls is empty, so the Russell 3000 universe is never
scanned, contradicting the claimed per-universe isolation. -/
theorem malformed_sp500_aborts_whole_run_counterexample :
    runMain (Except.ok [])
        ⟨some [("name", ["Alpha"]), ("price", ["10"])], some [("Ticker", ["AAPL"])],
          false, none, 0, none⟩
      = ([], some LoadErr.missingTickerColumn) ∧
    ∀ call ∈ (runMain (Except.ok [])
        ⟨some [("name", ["Alpha"]), ("price", ["10"])], some [("Ticker", ["AAPL"])],
          false, none, 0, none⟩).1, call.1 ≠ "russell3000" := by decide

/-- C2, amended. A malformed supplied CSV is terminal for the whole process,
not just for its own universe: whenever the S&P 500 CSV has no
ticker/symbol column (and default flags scan S&P 500 first), `main` aborts
before any universe is scanned, so the Russell 3000 scan never runs. -/
theorem malformed_sp500_csv_aborts_run (fetch : Except LoadErr (List String))
    (spCsv r3kCsv : Csv) (hmal : findTickerColumn spCsv = none) :
    runMain fetch ⟨some spCsv, some r3kCsv, false, none, 0, none⟩
      = ([], some LoadErr.missingTickerColumn) := by
  simp [runMain, onlyAllows, read_sp500_csv, hmal]

/-- C2, witness for the amended theorem at a concrete malformed CSV. -/
theorem malformed_sp500_csv_aborts_run_witness :
    runMain (Except.ok ["AAPL"]) ⟨some [("name", ["Alpha"])], some [("Ticker", ["AAPL"])],
        false, none, 0, none⟩
      = ([], some LoadErr.missingTickerColumn) :=
  malformed_sp500_csv_aborts_run (Except.ok ["AAPL"])
    [("name", ["Alpha"])] [("Ticker", ["AAPL"])] (by decide)

/-- C3, counterexample. The claim says a sleep separates every pair of
consecutive external calls, including successive candidate attempts for one
identifier. In `scan_universe` the single `time.sleep` sits at the end of
the per-ticker loop body, after the whole candidate loop: when every lookup
for "BRK-B" is unavailable, all six candidate calls are adjacent in the
trace with no sleep between them. -/
theorem no_sleep_between_candidate_calls_counterexample :
    sleepSeparated (scanTraceTf (fun _ => none) "4h" ["BRK-B"]) = false ∧
    scanTraceTf (fun _ => none) "4h" ["BRK-B"] =
      [Event.call "NASDAQ" "BRK-B" "4h", Event.call "NYSE" "BRK-B" "4h",
       Event.call "AMEX" "BRK-B" "4h", Event.call "NASDAQ" "BRK.B" "4h",
       Event.call "NYSE" "BRK.B" "4h", Event.call "AMEX" "BRK.B" "4h",
       Event.sleepEv] := by decide

/-- C3, amended. The configured delay is slept exactly once per identifier
per timeframe, after that identifier's candidate probing completes — not
between successive candidate attempts. -/
theorem one_sleep_per_identifier (rating : String × String → Option String)
    (tf : String) (tickers : List String) :
    (scanTraceTf rating tf tickers).count Event.sleepEv = tickers.length := by
  induction tickers with
  | nil => rfl
  | cons t rest ih =>
    unfold scanTraceTf at ih ⊢
    rw [List.flatMap_cons, List.count_append, count_sleep_tickerTrace, ih]
    simp [Nat.add_comm]

/-- C4, counterexample. The equity loaders map "." to "-" while the crypto
pipeline's symbol formatting deletes "." and "-" from the uppercased
symbol, so the two pipelines disagree on the normalized form of a ticker
containing ".". -/
theorem normalization_pipelines_disagree_counterexample :
    normalizeTicker "BRK.B" = "BRK-B" ∧ tvBase "BRK.B" = "BRKB" ∧
    normalizeTicker "BRK.B" ≠ tvBase "BRK.B" := by decide

/-- Every "." or "-" in a ticker survives the equity normalization as a "-"
in the output: "." is mapped to "-", "-" is left alone, and only spaces are
removed. -/
theorem dash_mem_normalizeTicker (u : String)
    (hu : containsChar u '.' = true ∨ containsChar u '-' = true) :
    '-' ∈ (normalizeTicker u).data := by
  obtain ⟨c, hcmem, hc⟩ : ∃ c ∈ u.data, c = '.' ∨ c = '-' := by
    rcases hu with h | h
    · exact ⟨'.', by simpa [containsChar] using h, Or.inl rfl⟩
    · exact ⟨'-', by simpa [containsChar] using h, Or.inr rfl⟩
  unfold normalizeTicker upperStr removeChar replaceChar
  dsimp only
  refine List.mem_map.mpr ⟨'-', ?_, by decide⟩
  refine List.mem_filter.mpr ⟨?_, by decide⟩
  rw [List.map_map]
  refine List.mem_map.mpr ⟨c, hcmem, ?_⟩
  rcases hc with rfl | rfl
  · decide
  · decide

/-- The crypto symbol formatting deletes every "-", so its output never
contains one. -/
theorem dash_not_mem_tvBase (u : String) : '-' ∉ (tvBase u).data := by
  unfold tvBase removeChar upperStr
  dsimp only
  intro hmem
  exact absurd (List.mem_filter.mp hmem).2 (by decide)

/-- C4, amended. Within the equity pipeline the one shared normalization
does behave as the spec words it (uppercase, "." and "/" mapped to "-") on
any space-free input; but the crypto pipeline uses a different map that
strips the punctuation, so the two pipelines disagree on every ticker
containing "." or "-". -/
theorem equity_normalization_matches_spec (s : String) (hs : ' ' ∉ s.data) :
    normalizeTicker s = specNormalize s ∧
    ∀ u, (containsChar u '.' = true ∨ containsChar u '-' = true) →
      normalizeTicker u ≠ tvBase u := by
  refine ⟨?_, fun u hu heq => dash_not_mem_tvBase u (heq ▸ dash_mem_normalizeTicker u hu)⟩
  unfold normalizeTicker specNormalize upperStr removeChar replaceChar
  dsimp only
  rw [List.map_map]
  rw [List.filter_eq_self.mpr ?notSpace]
  case notSpace =>
    intro c hcmem
    rw [List.mem_map] at hcmem
    obtain ⟨c0, hc0, rfl⟩ := hcmem
    have hc0ne : c0 ≠ ' ' := fun hh => hs (hh ▸ hc0)
    by_cases h1 : c0 = '.'
    · subst h1; decide
    · by_cases h2 : c0 = '/'
      · subst h2; decide
      · simp [Function.comp, h1, h2, hc0ne]
  · rw [List.map_map]
    congr 1
    refine List.map_congr_left (fun c _ => ?_)
    by_cases h1 : c = '.'
    · subst h1; decide
    · by_cases h2 : c = '/'
      · subst h2; decide
      · simp [Function.comp, h1, h2]

/-- C4, witness for the amended theorem: both conjuncts instantiated at
concrete tickers (a space-free "."-ticker for the spec refinement, a
"-"-ticker for the pipeline disagreement). -/
theorem equity_normalization_matches_spec_witness :
    normalizeTicker "brk.b" = specNormalize "brk.b" ∧
    normalizeTicker "BRK-B" ≠ tvBase "BRK-B" :=
  ⟨(equity_normalization_matches_spec "brk.b" (by decide)).1,
   (equity_normalization_matches_spec "brk.b" (by decide)).2 "BRK-B" (Or.inr (by decide))⟩

/-- C5, confirmed. With the venue list of the claim, the candidate generator
produces exactly the four (venue, symbol) pairs for "BRK.B" — both
punctuation variants crossed with both venues — each exactly once, in the
fixed order determined by the generator. -/
theorem brkb_candidates_exact :
    (tv_symbol_candidatesWith ["NASDAQ", "NYSE"] "BRK.B").toFinset
        = {("NASDAQ", "BRK.B"), ("NASDAQ", "BRK-B"),
           ("NYSE", "BRK.B"), ("NYSE", "BRK-B")} ∧
    (tv_symbol_candidatesWith ["NASDAQ", "NYSE"] "BRK.B").Nodup ∧
    (tv_symbol_candidatesWith ["NASDAQ", "NYSE"] "BRK.B").length = 4 := by decide

/-- C6, confirmed. If the candidates of an identifier before index `i` are
all unavailable and the candidate at `i` answers with a non-BUY rating such
as "SELL", then exactly the first `i + 1` candidates are queried — probing
stops at the first definitive answer — and the identifier contributes no
row to the output. -/
theorem stop_at_first_definitive_rating (rating : String × String → Option String)
    (t tf : String) (i : Nat) (rec : String)
    (h : i < (tv_symbol_candidates t).length)
    (hbefore : ∀ (j : Nat) (hj : j < (tv_symbol_candidates t).length), j < i →
      rating (tv_symbol_candidates t)[j] = none)
    (hi : rating (tv_symbol_candidates t)[i] = some rec)
    (hnb : isBuy rec = false) :
    probeCands rating (tv_symbol_candidates t)
      = ((tv_symbol_candidates t).take (i + 1), none) ∧
    probeRow rating tf t = none := by
  have hpc := probeCands_stop rating (tv_symbol_candidates t) i h rec hbefore hi hnb
  refine ⟨hpc, ?_⟩
  unfold probeRow
  rw [hpc]

/-- C6, witness: the first candidate of "BRK-B" answers "SELL"; only that
one candidate is queried and no row is produced. -/
theorem stop_at_first_definitive_rating_witness :
    probeCands (fun c => if c = ("NASDAQ", "BRK-B") then some "SELL" else none)
        (tv_symbol_candidates "BRK-B")
      = ((tv_symbol_candidates "BRK-B").take 1, none) ∧
    probeRow (fun c => if c = ("NASDAQ", "BRK-B") then some "SELL" else none)
        "4h" "BRK-B" = none :=
  stop_at_first_definitive_rating
    (fun c => if c = ("NASDAQ", "BRK-B") then some "SELL" else none)
    "BRK-B" "4h" 0 "SELL" (by decide)
    (fun j hj hlt => absurd hlt (Nat.not_lt_zero j)) (by decide) (by decide)

/-- C7, confirmed. The rating lookup is a total function into an optional
label: a failing external call (here: any erroring analysis oracle) is
normalized to `none`, and on any oracle the lookup returns either a rating
string or `none` — nothing ever propagates past this boundary. -/
theorem rating_lookup_total (analyze : String → String → String → AnalysisResult)
    (exchange symbol interval e : String) :
    get_tv_rating (fun _ _ _ => Except.error e) exchange symbol interval = none ∧
    (get_tv_rating analyze exchange symbol interval = none ∨
      ∃ rec, get_tv_rating analyze exchange symbol interval = some rec) := by
  refine ⟨rfl, ?_⟩
  cases h : get_tv_rating analyze exchange symbol interval with
  | none => exact Or.inl rfl
  | some rec => exact Or.inr ⟨rec, rfl⟩

/-- C8, confirmed. Every row of the equity output table is rated
BUY/STRONG_BUY and the table is pairwise sorted ascending by
(rating, ticker); every row of the crypto output table is rated
BUY/STRONG_BUY and that table is pairwise sorted descending by market
cap. -/
theorem output_filtered_and_sorted (rating : String × String → Option String)
    (tf : String) (tickers : List String)
    (attempt : Coin → String × String → Option String) (cg : List Coin) :
    (∀ r ∈ scan_universe_tf rating tf tickers, isBuy r.rating = true) ∧
    List.Pairwise (fun a b => rowLe a b = true) (scan_universe_tf rating tf tickers) ∧
    (∀ r ∈ crypto_output attempt cg, isBuy r.rating_4h = true) ∧
    List.Pairwise (fun a b => capDesc a b = true) (crypto_output attempt cg) := by
  refine ⟨?_, ?_, ?_, ?_⟩
  · intro r hr
    have hmem : r ∈ scanRowsTf rating tf tickers :=
      (List.mergeSort_perm (scanRowsTf rating tf tickers) rowLe).mem_iff.mp hr
    exact (mem_scanRowsTf rating tf tickers r hmem).1
  · exact List.sorted_mergeSort rowLe_trans rowLe_total _
  · intro r hr
    have hmem : r ∈ cryptoRows attempt cg :=
      (List.mergeSort_perm (cryptoRows attempt cg) capDesc).mem_iff.mp hr
    exact mem_cryptoRows attempt cg r hmem
  · exact List.sorted_mergeSort capDesc_trans capDesc_total _

/-- C9, confirmed. An identifier whose every candidate is unavailable
produces no row, and the scan of the remaining identifiers is exactly what
it would have been without that identifier: a silent non-match, not an
error. -/
theorem unavailable_identifier_omitted (rating : String × String → Option String)
    (tf t : String) (rest : List String)
    (h : ∀ c ∈ tv_symbol_candidates t, rating c = none) :
    probeRow rating tf t = none ∧
    scanRowsTf rating tf (t :: rest) = scanRowsTf rating tf rest := by
  have hpc := probeCands_all_none rating (tv_symbol_candidates t) h
  have hrow : probeRow rating tf t = none := by
    unfold probeRow
    rw [hpc]
  refine ⟨hrow, ?_⟩
  unfold scanRowsTf
  rw [List.flatMap_cons, hrow]
  rfl

/-- C9, witness: an always-unavailable oracle on a two-ticker universe. -/
theorem unavailable_identifier_omitted_witness :
    probeRow (fun _ => none) "4h" "AAPL" = none ∧
    scanRowsTf (fun _ => none) "4h" ["AAPL", "MSFT"]
      = scanRowsTf (fun _ => none) "4h" ["MSFT"] :=
  unavailable_identifier_omitted (fun _ => none) "4h" "AAPL" ["MSFT"]
    (fun _ _ => rfl)

/-- C10, confirmed. In both pipelines an identifier contributes at most one
output row per occurrence in the input list: the equity rows naming a
ticker are bounded by its occurrences in the universe, and the crypto rows
naming a symbol are bounded by the coins carrying that symbol. -/
theorem at_most_one_row_per_occurrence (rating : String × String → Option String)
    (tf t : String) (tickers : List String)
    (attempt : Coin → String × String → Option String) (cg : List Coin)
    (s : String) :
    (scanRowsTf rating tf tickers).countP (fun r => r.ticker == t)
      ≤ tickers.count t ∧
    (cryptoRows attempt cg).countP (fun r => r.symbol == s)
      ≤ cg.countP (fun c => upperStr c.symbol == s) := by
  constructor
  · induction tickers with
    | nil => simp [scanRowsTf]
    | cons x rest ih =>
      unfold scanRowsTf at ih ⊢
      rw [List.flatMap_cons, List.countP_append, List.count_cons]
      have hhead : ((probeRow rating tf x).toList).countP (fun r => r.ticker == t)
          ≤ if x == t then 1 else 0 := by
        cases hp : probeRow rating tf x with
        | none => simp
        | some r0 =>
          have hticker := (probeRow_fields rating tf x r0 hp).2.1
          simp only [Option.toList_some, List.countP_cons, List.countP_nil,
            Nat.zero_add, hticker]
          exact Nat.le_refl _
      rw [Nat.add_comm (rest.count t)]
      exact Nat.add_le_add hhead ih
  · induction cg with
    | nil => simp [cryptoRows]
    | cons c rest ih =>
      unfold cryptoRows at ih ⊢
      rw [List.flatMap_cons, List.countP_append, List.countP_cons]
      have hhead : ((cryptoRow (attempt c) c).toList).countP (fun r => r.symbol == s)
          ≤ if upperStr c.symbol == s then 1 else 0 := by
        cases hp : cryptoRow (attempt c) c with
        | none => simp
        | some r0 =>
          have hsym := (cryptoRow_fields (attempt c) c r0 hp).2
          simp only [Option.toList_some, List.countP_cons, List.countP_nil,
            Nat.zero_add, hsym]
          exact Nat.le_refl _
      rw [Nat.add_comm (rest.countP (fun c => upperStr c.symbol == s))]
      exact Nat.add_le_add hhead ih

end Screening
